import Mathlib

/-!
Shallow embedding of `common/Scripts/worklog.py`: a reporting utility that
selects package-build events and git commits inside a time window and renders
them for a terminal or as markdown.

Timestamps are modelled as integers (UTC instants).  The external ISO-8601
parser (`datetime.fromisoformat` composed with `astimezone(utc)`) is passed
around as an explicit parameter `parse : String → Int`, since date parsing is
delegated to the runtime and not part of the pipeline logic.  The current
clock instant (`datetime.now`) is likewise an explicit parameter `now`.
-/

namespace Worklog

/-- Python `str.split(sep, maxsplit)` restricted to a one-character separator,
operating on the character list of the string.  `n` is the number of splits
still allowed; Python's unbounded `split(sep)` is recovered by passing the
length of the string (an upper bound on the number of separators). -/
def pysplitMax (sep : Char) : List Char → Nat → List (List Char)
  | [], _ => [[]]
  | c :: rest, n =>
    if c = sep ∧ n ≠ 0 then
      [] :: pysplitMax sep rest (n - 1)
    else
      match pysplitMax sep rest n with
      | [] => [[c]]
      | h :: t => (c :: h) :: t

/-- Python `str.split(sep)` with no maxsplit: the separator can occur at most
`s.length` times, so `s.length` splits are never limiting. -/
def pysplit (sep : Char) (s : List Char) : List (List Char) :=
  pysplitMax sep s s.length

/-- The characters Python `str.strip()` removes. -/
def isPySpace (c : Char) : Bool :=
  c = ' ' || c = '\t' || c = '\n' || c = '\x0b' || c = '\x0c' || c = '\r'

/-- Python `str.strip()`: drop whitespace from both ends. -/
def pystrip (s : List Char) : List Char :=
  ((s.dropWhile isPySpace).reverse.dropWhile isPySpace).reverse

/-- One non-merge commit, as parsed from one line of `git log` output
(worklog.py `Commit`): short ref, ISO timestamp, subject, author. -/
structure Commit where
  ref : String
  ts : String
  msg : String
  author : String
deriving DecidableEq

/-- `Commit.from_line`: `Commit(*line.split('\x1e'))`.  The construction
succeeds exactly when the line splits into the four declared fields; with any
other arity Python raises a `TypeError`, modelled as `none`. -/
def Commit.from_line (line : List Char) : Option Commit :=
  match pysplit '\x1e' line with
  | [r, t, m, a] => some ⟨String.mk r, String.mk t, String.mk m, String.mk a⟩
  | _ => none

/-- `Commit.package`: `'<unknown>'` when the subject has no colon, otherwise
`msg.split(':', 2)[0].strip()`. -/
def Commit.package (c : Commit) : String :=
  if ':' ∉ c.msg.data then "<unknown>"
  else String.mk (pystrip ((pysplitMax ':' c.msg.data 2).getD 0 []))

/-- `Commit.change`: the whole stripped subject when it has no colon,
otherwise `msg.split(':', 2)[1].strip()`. -/
def Commit.change (c : Commit) : String :=
  if ':' ∉ c.msg.data then String.mk (pystrip c.msg.data)
  else String.mk (pystrip ((pysplitMax ':' c.msg.data 2).getD 1 []))

/-- `Commit.url`. -/
def Commit.url (c : Commit) : String :=
  "https://github.com/getsolus/packages/commit/" ++ c.ref

/-- `Commit.date`: `fromisoformat(ts)` in UTC, via the explicit parser. -/
def Commit.dateAt (parse : String → Int) (c : Commit) : Int :=
  parse c.ts

namespace Git

/-- `Git._commits`: `out` is the (possibly absent) stdout of the `git log`
subprocess.  When present the body is stripped and split on newlines. -/
def rawLines (out : Option String) : List (List Char) :=
  match out with
  | none => []
  | some s => pysplit '\n' (pystrip s.data)

/-- `Git.commits`: parse every raw line with `Commit.from_line`; a line of the
wrong arity makes the whole call fail (Python raises). -/
def commitsOut (out : Option String) : Option (List Commit) :=
  (rawLines out).mapM Commit.from_line

end Git

/-- One build attempt from the remote feed (worklog.py `Build`).  The optional
`finished` field keeps the raw ISO string from the JSON, as in the source. -/
structure Build where
  id : Int
  pkg : String
  version : String
  release : String
  ref : String
  tag : String
  tag_url : String
  log_url : String
  status : String
  builder : String
  finished : Option String
deriving DecidableEq

/-- `Build.package` property: returns the `pkg` field. -/
def Build.package (b : Build) : String :=
  b.pkg

/-- `Build.date`: `datetime.now(utc)` when `finished` is `None`, otherwise
`fromisoformat(finished)` in UTC.  `now` is the clock instant at this access
and `parse` the external ISO parser. -/
def Build.dateAt (parse : String → Int) (now : Int) (b : Build) : Int :=
  match b.finished with
  | none => now
  | some f => parse f

namespace Builds

/-- `Builds._filter`: keep the builds whose effective date lies in the
inclusive window `[s, e]` (`start <= b.date <= end`). -/
def filterW (parse : String → Int) (builds : List Build) (s e now : Int) :
    List Build :=
  builds.filter fun b =>
    decide (s ≤ Build.dateAt parse now b ∧ Build.dateAt parse now b ≤ e)

/-- One step of the dict comprehension `{b.pkg: b for b in self.all}`: a
Python dict keeps the position of the first insertion of a key and overwrites
its value on re-insertion. -/
def insertPkg (m : List Build) (b : Build) : List Build :=
  if m.any fun x => decide (x.pkg = b.pkg) then
    m.map fun x => if x.pkg = b.pkg then b else x
  else
    m ++ [b]

/-- `Builds.packages`: fold the feed into the dict and take its values, i.e.
the last build per package name, in package-first-seen order. -/
def packages (feed : List Build) : List Build :=
  feed.foldl insertPkg []

/-- `Builds.during`: filter the whole feed by the window. -/
def during (parse : String → Int) (feed : List Build) (s e now : Int) :
    List Build :=
  filterW parse feed s e now

/-- `Builds.updates`: filter the per-package latest builds by the window. -/
def updates (parse : String → Int) (feed : List Build) (s e now : Int) :
    List Build :=
  filterW parse (packages feed) s e now

end Builds

-- Terminal escape sequences (worklog.py TTY).
namespace TTY

def Reset : String := "\x1b[0m"

def Red : String := "\x1b[31m"

def Green : String := "\x1b[32m"

def Yellow : String := "\x1b[33m"

def Blue : String := "\x1b[34m"

def White : String := "\x1b[97m"

def url (name ref : String) : String :=
  "\x1b]8;;" ++ ref ++ "\x1b\\" ++ name ++ "\x1b]8;;\x1b\\"

end TTY

/-- `Build.to_md`. -/
def Build.to_md (b : Build) : String :=
  "[" ++ b.pkg ++ " " ++ b.version ++ "-" ++ b.release ++ "](" ++ b.tag_url ++ ")"

/-- `Build.to_tty`. -/
def Build.to_tty (b : Build) : String :=
  TTY.Green ++ b.pkg ++ TTY.Reset ++ " " ++ b.version ++ "-" ++ b.release ++ " " ++
    TTY.Blue ++ "[" ++ b.builder ++ "]" ++ TTY.Reset ++ " " ++ TTY.url "[🡕]" b.tag_url

/-- `Commit.to_md`. -/
def Commit.to_md (c : Commit) : String :=
  "[" ++ c.msg ++ "](" ++ c.url ++ ")"

/-- `Commit.to_tty`.  The interpolated `self.date` is rendered through the
integer instant the external parser yields for `ts`. -/
def Commit.to_tty (parse : String → Int) (c : Commit) : String :=
  TTY.Yellow ++ TTY.url c.ref c.url ++ TTY.Reset ++ " " ++
    toString (Commit.dateAt parse c) ++ " " ++
    TTY.Green ++ c.package ++ ": " ++ TTY.Reset ++ c.change ++ " " ++
    TTY.Blue ++ "[" ++ c.author ++ "]" ++ TTY.Reset ++ " " ++ TTY.url "[🡕]" c.url

/-- A `Listable` item: the two concrete variants of worklog.py's interface. -/
inductive Item where
  | build (b : Build)
  | commit (c : Commit)
deriving DecidableEq

/-- The `package` property of a `Listable`. -/
def Item.package : Item → String
  | .build b => b.package
  | .commit c => c.package

/-- The `date` property of a `Listable`, at clock instant `now`. -/
def Item.dateAt (parse : String → Int) (now : Int) : Item → Int
  | .build b => Build.dateAt parse now b
  | .commit c => Commit.dateAt parse c

/-- Markdown rendering of a `Listable`. -/
def Item.to_md : Item → String
  | .build b => b.to_md
  | .commit c => c.to_md

/-- Terminal rendering of a `Listable`. -/
def Item.to_tty (parse : String → Int) : Item → String
  | .build b => b.to_tty
  | .commit c => c.to_tty parse

/-- Errors of the pipeline (worklog.py raises `ValueError`/`TypeError`). -/
inductive WError where
  | unsupportedKind (kind : String)
  | unsupportedFormat (fmt : String)
  | historyParse
deriving DecidableEq

deriving instance DecidableEq for Except

/-- The two kinds of external I/O `Printer._items` can perform. -/
inductive Fetch where
  | buildFeed
  | gitLog
deriving DecidableEq

namespace Printer

/-- The sort key ordering of `sorted(items, key=lambda item: (item.package,
item.date))`: lexicographic on the pair, package name first. -/
def keyLe (parse : String → Int) (now : Int) (x y : Item) : Bool :=
  decide (x.package < y.package ∨
    (x.package = y.package ∧ Item.dateAt parse now x ≤ Item.dateAt parse now y))

/-- Python `sorted` is a stable sort by the key; modelled with the (stable)
`List.mergeSort`. -/
def sortItems (parse : String → Int) (now : Int) (l : List Item) : List Item :=
  l.mergeSort (keyLe parse now)

/-- `Printer._items`: dispatch on `kind`, recording which external fetch the
taken branch performs.  The fallthrough raises before any fetch. -/
def itemsRun (parse : String → Int) (feed : List Build) (gitOut : Option String)
    (s e now : Int) (kind : String) : List Fetch × Except WError (List Item) :=
  if kind = "builds" then
    ([Fetch.buildFeed], Except.ok ((Builds.during parse feed s e now).map Item.build))
  else if kind = "updates" then
    ([Fetch.buildFeed], Except.ok ((Builds.updates parse feed s e now).map Item.build))
  else if kind = "commits" then
    ([Fetch.gitLog],
      match Git.commitsOut gitOut with
      | some cs => Except.ok (cs.map Item.commit)
      | none => Except.error WError.historyParse)
  else
    ([], Except.error (WError.unsupportedKind kind))

/-- `Printer._print`: render every item in the requested format, printing the
joined lines only when the item sequence is non-empty.  The first component
is the item lines actually printed; an unsupported format raises before any
line is printed. -/
def printRun (parse : String → Int) (items : List Item) (fmt : String) :
    List String × Option WError :=
  if fmt = "tty" then
    (if items.length > 0 then items.map (Item.to_tty parse) else [], none)
  else if fmt = "md" then
    (if items.length > 0 then items.map (fun i => "- " ++ i.to_md) else [], none)
  else
    ([], some (WError.unsupportedFormat fmt))

/-- The body of `Printer.print` after `_items` returned: optional stable sort,
then the count line, then `_print`.  Returns the printed lines and the error,
if any, that aborted printing. -/
def printSel (parse : String → Int) (now : Int) (kind fmt : String) (srt : Bool)
    (items : List Item) : List String × Option WError :=
  let its := if srt then sortItems parse now items else items
  match printRun parse its fmt with
  | (ls, err) => ((toString its.length ++ " " ++ kind ++ ":") :: ls, err)

/-- `Printer.print` end to end: select items, then print.  A selection error
propagates before the count line. -/
def oneShot (parse : String → Int) (feed : List Build) (gitOut : Option String)
    (s e now : Int) (kind fmt : String) (srt : Bool) :
    List String × Option WError :=
  match itemsRun parse feed gitOut s e now kind with
  | (_, Except.error err) => ([], some err)
  | (_, Except.ok items) => printSel parse now kind fmt srt items

/-- The sleep between follow-mode cycles, in seconds. -/
def followSleepSeconds : Nat := 10

/-- `Printer.follow`'s window sequence: cycle `i` prints `[start_i, end_i]`
with `end_i = clock i` (the instant read at the top of the cycle) and
`start_(i+1) = end_i`; `start0` is the initial resolved `after` date. -/
def followWindows (start0 : Int) (clock : Nat → Int) : Nat → Int × Int
  | 0 => (start0, clock 0)
  | n + 1 => ((followWindows start0 clock n).2, clock (n + 1))

end Printer

/-- Spec-side characterization of first-insertion order: keep the first
occurrence of every name, in order of first appearance.  Modelled from the
spec's words ("returned in the resulting mapping's natural package-insertion
order"), to be compared with the fold `Builds.packages` from the source. -/
def firstDedup : List String → List String
  | [] => []
  | a :: l => a :: (firstDedup l).filter fun x => decide (x ≠ a)

/-- The action of the dict comprehension on the key list alone. -/
def insKey (keys : List String) (k : String) : List String :=
  if k ∈ keys then keys else keys ++ [k]

/-- A concrete stand-in for the external ISO parser, used to evaluate the
pipeline on closed inputs. -/
def exParse : String → Int := fun _ => 0

/-- A finished build (effective date `exParse "2024-01-01" = 0`). -/
def exBuildF : Build :=
  ⟨1, "acl", "2.3", "1", "r", "t", "tu", "lu", "ok", "solbuild", some "2024-01-01"⟩

/-- An unfinished build (`finished = None`). -/
def exBuildN : Build :=
  ⟨2, "bash", "5.2", "1", "r", "t", "tu", "lu", "building", "solbuild", none⟩

/-- A second, later build of the same package as `exBuildF`. -/
def exBuildF2 : Build :=
  ⟨3, "acl", "2.4", "1", "r", "t", "tu", "lu", "ok", "solbuild", some "2024-02-02"⟩

/-- A concrete monotone clock for evaluating the follow loop. -/
def exClock : Nat → Int := fun n => (n : Int)

/-! Helper lemmas about Python splitting. -/

theorem pysplitMax_of_not_mem (sep : Char) :
    ∀ (s : List Char) (n : Nat), sep ∉ s → pysplitMax sep s n = [s]
  | [], _, _ => rfl
  | c :: rest, n, h => by
    simp only [List.mem_cons, not_or] at h
    rw [pysplitMax, if_neg fun hh => h.1 hh.1.symm,
      pysplitMax_of_not_mem sep rest n h.2]

theorem pysplitMax_append_sep (sep : Char) :
    ∀ (a rest : List Char) (n : Nat), sep ∉ a →
      pysplitMax sep (a ++ sep :: rest) (n + 1) = a :: pysplitMax sep rest n
  | [], rest, n, _ => by
    rw [List.nil_append, pysplitMax, if_pos ⟨rfl, Nat.succ_ne_zero n⟩,
      Nat.add_sub_cancel]
  | c :: a, rest, n, h => by
    simp only [List.mem_cons, not_or] at h
    rw [List.cons_append, pysplitMax, if_neg fun hh => h.1 hh.1.symm,
      pysplitMax_append_sep sep a rest n h.2]

/-! Helper lemmas about the package-keyed dict fold. -/

theorem map_pkg_insertPkg (m : List Build) (b : Build) :
    (Builds.insertPkg m b).map Build.pkg = insKey (m.map Build.pkg) b.pkg := by
  have key : ((m.any fun x => decide (x.pkg = b.pkg)) = true) ↔
      b.pkg ∈ m.map Build.pkg := by
    rw [List.any_eq_true, List.mem_map]
    constructor
    · rintro ⟨x, hx, hd⟩
      exact ⟨x, hx, of_decide_eq_true hd⟩
    · rintro ⟨x, hx, he⟩
      exact ⟨x, hx, decide_eq_true he⟩
  rw [Builds.insertPkg, insKey]
  by_cases hc : b.pkg ∈ m.map Build.pkg
  · rw [if_pos (key.mpr hc), if_pos hc, List.map_map]
    refine List.map_congr_left fun x hx => ?_
    by_cases hpx : x.pkg = b.pkg <;> simp [hpx, Function.comp]
  · rw [if_neg fun h => hc (key.mp h), if_neg hc, List.map_append]
    rfl

theorem map_pkg_foldl (feed : List Build) :
    ∀ acc : List Build, (feed.foldl Builds.insertPkg acc).map Build.pkg
      = (feed.map Build.pkg).foldl insKey (acc.map Build.pkg) := by
  induction feed with
  | nil => intro acc; rfl
  | cons x feed ih =>
    intro acc
    rw [List.foldl_cons, List.map_cons, List.foldl_cons, ih, map_pkg_insertPkg]

theorem foldl_insKey_eq (l : List String) :
    ∀ acc : List String, l.foldl insKey acc
      = acc ++ (firstDedup l).filter fun k => decide (k ∉ acc) := by
  induction l with
  | nil => intro acc; simp [firstDedup]
  | cons k l ih =>
    intro acc
    rw [List.foldl_cons, ih, firstDedup]
    by_cases hk : k ∈ acc
    · rw [show insKey acc k = acc from if_pos hk,
        List.filter_cons_of_neg (by simp [hk])]
      congr 1
      rw [List.filter_filter]
      refine (List.filter_congr fun x hx => ?_).symm
      by_cases hxk : x = k
      · subst hxk; simp [hk]
      · simp [hxk]
    · rw [show insKey acc k = acc ++ [k] from if_neg hk,
        List.filter_cons_of_pos (by simp [hk]), List.append_assoc]
      congr 1
      rw [List.singleton_append, List.filter_filter]
      congr 1
      refine List.filter_congr fun x hx => ?_
      have hiff : (x ∉ acc ++ [k]) ↔ ¬x = k ∧ x ∉ acc := by
        simp only [List.mem_append, List.mem_singleton, not_or]
        exact ⟨fun ⟨h1, h2⟩ => ⟨h2, h1⟩, fun ⟨h1, h2⟩ => ⟨h2, h1⟩⟩
      have hdec : decide (x ∉ acc ++ [k]) = decide (¬x = k ∧ x ∉ acc) :=
        decide_eq_decide.mpr hiff
      rw [hdec]
      by_cases h1 : x = k <;> by_cases h2 : x ∈ acc <;> simp [h1, h2]

theorem packages_map_pkg (feed : List Build) :
    (Builds.packages feed).map Build.pkg = firstDedup (feed.map Build.pkg) := by
  have h0 : (([] : List Build).map Build.pkg) = [] := rfl
  rw [Builds.packages, map_pkg_foldl, h0, foldl_insKey_eq, List.nil_append]
  exact List.filter_eq_self.mpr fun a _ => decide_eq_true (by simp)

theorem firstDedup_nodup : ∀ l : List String, (firstDedup l).Nodup
  | [] => List.nodup_nil
  | a :: l => by
    rw [firstDedup]
    refine List.nodup_cons.mpr
      ⟨fun hmem => ?_, List.Nodup.sublist (List.filter_sublist _) (firstDedup_nodup l)⟩
    have := (List.mem_filter.mp hmem).2
    simp at this

theorem packages_last_of_mem (feed : List Build) :
    ∀ b ∈ Builds.packages feed,
      (feed.filter fun x => decide (x.pkg = b.pkg)).getLast? = some b := by
  induction feed using List.reverseRecOn with
  | nil =>
    intro b hb
    simp [Builds.packages] at hb
  | append_singleton feed x ih =>
    intro b hb
    rw [Builds.packages, List.foldl_append, List.foldl_cons, List.foldl_nil,
      show List.foldl Builds.insertPkg [] feed = Builds.packages feed from rfl] at hb
    have hlastx : ∀ c : Build, c.pkg = x.pkg →
        ((feed ++ [x]).filter fun z => decide (z.pkg = c.pkg)).getLast? = some x := by
      intro c hc
      rw [List.filter_append, show List.filter (fun z => decide (z.pkg = c.pkg)) [x] = [x]
        from List.filter_cons_of_pos (decide_eq_true hc.symm), List.getLast?_concat]
    have hlastold : ∀ c : Build, c ∈ Builds.packages feed → ¬c.pkg = x.pkg →
        ((feed ++ [x]).filter fun z => decide (z.pkg = c.pkg)).getLast? = some c := by
      intro c hcm hc
      rw [List.filter_append, show List.filter (fun z => decide (z.pkg = c.pkg)) [x] = []
        from List.filter_cons_of_neg (by simpa using fun h => hc h.symm),
        List.append_nil]
      exact ih c hcm
    by_cases hany : ((Builds.packages feed).any fun y => decide (y.pkg = x.pkg)) = true
    · rw [Builds.insertPkg, if_pos hany] at hb
      obtain ⟨y, hy, hyb⟩ := List.mem_map.mp hb
      by_cases hpy : y.pkg = x.pkg
      · rw [if_pos hpy] at hyb
        subst hyb
        exact hlastx x rfl
      · rw [if_neg hpy] at hyb
        subst hyb
        exact hlastold y hy hpy
    · rw [Builds.insertPkg, if_neg hany] at hb
      rcases List.mem_append.mp hb with hbm | hbx
      · refine hlastold b hbm fun hbp => hany ?_
        exact List.any_eq_true.mpr ⟨b, hbm, decide_eq_true hbp⟩
      · rw [List.mem_singleton.mp hbx]
        exact hlastx x rfl

/-! The claims. -/

/-- C1: for every window `[s, e]` with `s ≤ e`, every build returned by
`Builds.during` or `Builds.updates` has an effective date `d` with
`s ≤ d ≤ e`, both bounds inclusive. -/
theorem window_filter_inclusive (parse : String → Int) (feed : List Build)
    (s e now : Int) (hse : s ≤ e) (b : Build) :
    (b ∈ Builds.during parse feed s e now →
      s ≤ Build.dateAt parse now b ∧ Build.dateAt parse now b ≤ e)
  ∧ (b ∈ Builds.updates parse feed s e now →
      s ≤ Build.dateAt parse now b ∧ Build.dateAt parse now b ≤ e) := by
  constructor <;> intro hm <;>
  · simp only [Builds.during, Builds.updates, Builds.filterW, List.mem_filter] at hm
    exact of_decide_eq_true hm.2

/-- Witness for C1 at a concrete window and feed. -/
theorem window_filter_inclusive_check :
    (0 : Int) ≤ Build.dateAt exParse 3 exBuildF ∧ Build.dateAt exParse 3 exBuildF ≤ 10 :=
  (window_filter_inclusive exParse [exBuildF] 0 10 3 (by decide) exBuildF).1 (by decide)

/-- C2: `Builds.packages` (hence the `updates` view) holds at most one build
per distinct package name; the build kept for a package is the one appearing
last in feed order among that package's builds; and the package names come in
first-insertion (first-seen) order. -/
theorem updates_latest_per_package (parse : String → Int) (feed : List Build)
    (s e now : Int) :
    ((Builds.packages feed).map Build.pkg = firstDedup (feed.map Build.pkg))
  ∧ ((Builds.packages feed).map Build.pkg).Nodup
  ∧ (∀ b ∈ Builds.packages feed,
      (feed.filter fun x => decide (x.pkg = b.pkg)).getLast? = some b)
  ∧ ((Builds.updates parse feed s e now).map Build.pkg).Nodup
  ∧ (∀ b ∈ Builds.updates parse feed s e now,
      (feed.filter fun x => decide (x.pkg = b.pkg)).getLast? = some b) := by
  have h1 := packages_map_pkg feed
  have h2 : ((Builds.packages feed).map Build.pkg).Nodup := by
    rw [h1]
    exact firstDedup_nodup _
  have hsub : List.Sublist (Builds.updates parse feed s e now) (Builds.packages feed) := by
    simp only [Builds.updates, Builds.filterW]
    exact List.filter_sublist _
  refine ⟨h1, h2, packages_last_of_mem feed, ?_, ?_⟩
  · exact List.Nodup.sublist (hsub.map Build.pkg) h2
  · intro b hb
    exact packages_last_of_mem feed b (hsub.subset hb)

/-- Witness for C2: in the feed `[exBuildF, exBuildN, exBuildF2]` the entry
kept for package "acl" is the later build `exBuildF2`. -/
theorem updates_latest_per_package_check :
    ([exBuildF, exBuildN, exBuildF2].filter fun x =>
      decide (x.pkg = exBuildF2.pkg)).getLast? = some exBuildF2 :=
  (updates_latest_per_package exParse [exBuildF, exBuildN, exBuildF2] 0 0 0).2.2.1
    exBuildF2 (by decide)

/-- C3 counterexample: the claim says the subject `"foo: bar: baz"` yields
`change = "bar: baz"`; the code splits with maxsplit 2 and takes index 1, so
it yields `"bar"`. -/
theorem change_second_colon_cut_cex :
    (Commit.mk "" "" "foo: bar: baz" "").change ≠ "bar: baz" := by
  decide

/-- C3 amended: for a subject with at least one colon, `change` is the text
after the first colon and before the second colon when one exists (trimmed),
and the text after the first colon (trimmed) otherwise; `"foo: bar: baz"`
yields `change = "bar"`. -/
theorem change_between_first_and_second_colon (r t au : String)
    (a b c : List Char) (ha : ':' ∉ a) (hb : ':' ∉ b) :
    (Commit.mk r t (String.mk (a ++ ':' :: b)) au).change = String.mk (pystrip b)
  ∧ (Commit.mk r t (String.mk (a ++ ':' :: (b ++ ':' :: c))) au).change
      = String.mk (pystrip b)
  ∧ (Commit.mk "" "" "foo: bar: baz" "").change = "bar" := by
  refine ⟨?_, ?_, by decide⟩
  · have hmem : ':' ∈ a ++ ':' :: b := List.mem_append_right a (List.mem_cons_self _ _)
    rw [Commit.change, if_neg (not_not_intro hmem),
      show (Commit.mk r t (String.mk (a ++ ':' :: b)) au).msg.data = a ++ ':' :: b from rfl,
      show (2 : Nat) = 1 + 1 from rfl, pysplitMax_append_sep ':' a b 1 ha,
      pysplitMax_of_not_mem ':' b 1 hb]
    rfl
  · have hmem : ':' ∈ a ++ ':' :: (b ++ ':' :: c) :=
      List.mem_append_right a (List.mem_cons_self _ _)
    rw [Commit.change, if_neg (not_not_intro hmem),
      show (Commit.mk r t (String.mk (a ++ ':' :: (b ++ ':' :: c))) au).msg.data
        = a ++ ':' :: (b ++ ':' :: c) from rfl,
      show (2 : Nat) = 1 + 1 from rfl, pysplitMax_append_sep ':' a _ 1 ha,
      show (1 : Nat) = 0 + 1 from rfl, pysplitMax_append_sep ':' b c 0 hb]
    rfl

/-- Witness for C3's amended statement at a concrete subject. -/
theorem change_between_first_and_second_colon_check :
    (Commit.mk "r" "t" (String.mk ("pkg".data ++ ':' :: " fix".data)) "a").change
      = String.mk (pystrip " fix".data)
  ∧ (Commit.mk "r" "t" (String.mk ("pkg".data ++ ':' :: (" fix".data ++ ':' :: " more".data))) "a").change
      = String.mk (pystrip " fix".data)
  ∧ (Commit.mk "" "" "foo: bar: baz" "").change = "bar" :=
  change_between_first_and_second_colon "r" "t" "a" "pkg".data " fix".data " more".data
    (by decide) (by decide)

/-- C4: the spec says `Git.commits` returns an empty sequence when the
subprocess produces no output, and the `out is None` guard shows that intent;
but on an empty stdout the code computes `''.strip().split('\n') = ['']` and
`Commit.from_line('')` then fails (one field instead of four), so the call
errors instead of returning the empty list. -/
theorem git_commits_empty_output :
    Git.commitsOut none = some [] ∧ Git.commitsOut (some "") = none := by
  constructor <;> decide

/-- C5: in follow mode, cycle `i`'s window ends at the instant read at the
top of the cycle, the next cycle starts exactly at the previous end, the
sleep between cycles is the fixed 10 seconds, and an event whose effective
date equals `end_i` satisfies the inclusive window predicate of both cycle
`i` and cycle `i+1` (given a monotone clock). -/
theorem follow_window_boundary_overlap (start0 : Int) (clock : Nat → Int)
    (i : Nat) (h1 : (Printer.followWindows start0 clock i).1 ≤ clock i)
    (h2 : clock i ≤ clock (i + 1)) :
    (Printer.followWindows start0 clock i).2 = clock i
  ∧ (Printer.followWindows start0 clock (i + 1)).1
      = (Printer.followWindows start0 clock i).2
  ∧ ((Printer.followWindows start0 clock i).1 ≤ clock i
      ∧ clock i ≤ (Printer.followWindows start0 clock i).2)
  ∧ ((Printer.followWindows start0 clock (i + 1)).1 ≤ clock i
      ∧ clock i ≤ (Printer.followWindows start0 clock (i + 1)).2)
  ∧ Printer.followSleepSeconds = 10 := by
  have hend : (Printer.followWindows start0 clock i).2 = clock i := by
    cases i <;> rfl
  have hstart : (Printer.followWindows start0 clock (i + 1)).1
      = (Printer.followWindows start0 clock i).2 := rfl
  have hend2 : (Printer.followWindows start0 clock (i + 1)).2 = clock (i + 1) := rfl
  exact ⟨hend, hstart, ⟨h1, hend.ge⟩,
    ⟨le_of_eq (hstart.trans hend), le_of_le_of_eq h2 hend2.symm⟩, rfl⟩

/-- Witness for C5 at cycle 0 of a concrete monotone clock. -/
theorem follow_window_boundary_overlap_check :
    (Printer.followWindows 0 exClock 0).2 = exClock 0
  ∧ (Printer.followWindows 0 exClock (0 + 1)).1 = (Printer.followWindows 0 exClock 0).2
  ∧ ((Printer.followWindows 0 exClock 0).1 ≤ exClock 0
      ∧ exClock 0 ≤ (Printer.followWindows 0 exClock 0).2)
  ∧ ((Printer.followWindows 0 exClock (0 + 1)).1 ≤ exClock 0
      ∧ exClock 0 ≤ (Printer.followWindows 0 exClock (0 + 1)).2)
  ∧ Printer.followSleepSeconds = 10 :=
  follow_window_boundary_overlap 0 exClock 0 (by decide) (by decide)

/-- C6: a subject without a colon yields the sentinel package `"<unknown>"`
and `change` equal to the full stripped subject; the single-colon subject
`"palette: fix crash"` yields package `"palette"` and change `"fix crash"`. -/
theorem commit_no_colon_defaults (c : Commit) (h : ':' ∉ c.msg.data) :
    (c.package = "<unknown>" ∧ c.change = String.mk (pystrip c.msg.data))
  ∧ ((Commit.mk "" "" "palette: fix crash" "").package = "palette"
      ∧ (Commit.mk "" "" "palette: fix crash" "").change = "fix crash") := by
  refine ⟨⟨?_, ?_⟩, by decide, by decide⟩
  · rw [Commit.package, if_pos h]
  · rw [Commit.change, if_pos h]

/-- Witness for C6 at a concrete colon-free subject. -/
theorem commit_no_colon_defaults_check :
    ((Commit.mk "" "" "update docs" "").package = "<unknown>"
      ∧ (Commit.mk "" "" "update docs" "").change
          = String.mk (pystrip "update docs".data))
  ∧ ((Commit.mk "" "" "palette: fix crash" "").package = "palette"
      ∧ (Commit.mk "" "" "palette: fix crash" "").change = "fix crash") :=
  commit_no_colon_defaults (Commit.mk "" "" "update docs" "") (by decide)

/-- C7: in one-shot mode, an empty selection still prints the count line
`"0 <kind>:"` and no item lines after it, in either supported format. -/
theorem empty_selection_prints_count_line (parse : String → Int) (now : Int)
    (kind : String) (srt : Bool) :
    Printer.printSel parse now kind "tty" srt [] = (["0 " ++ kind ++ ":"], none)
  ∧ Printer.printSel parse now kind "md" srt [] = (["0 " ++ kind ++ ":"], none) := by
  constructor <;>
  · simp [Printer.printSel, Printer.printRun, Printer.sortItems]
    rfl

/-! Helper lemmas for the sort key. -/

theorem keyLe_trans (parse : String → Int) (now : Int) :
    ∀ a b c : Item, Printer.keyLe parse now a b → Printer.keyLe parse now b c →
      Printer.keyLe parse now a c := by
  intro a b c h1 h2
  simp only [Printer.keyLe, decide_eq_true_eq] at h1 h2 ⊢
  rcases h1 with h1 | ⟨h1e, h1d⟩ <;> rcases h2 with h2 | ⟨h2e, h2d⟩
  · exact Or.inl (lt_trans h1 h2)
  · exact Or.inl (h2e ▸ h1)
  · exact Or.inl (h1e ▸ h2)
  · exact Or.inr ⟨h1e.trans h2e, le_trans h1d h2d⟩

theorem keyLe_total (parse : String → Int) (now : Int) :
    ∀ a b : Item, Printer.keyLe parse now a b || Printer.keyLe parse now b a := by
  intro a b
  simp only [Printer.keyLe, Bool.or_eq_true, decide_eq_true_eq]
  rcases lt_trichotomy a.package b.package with h | h | h
  · exact Or.inl (Or.inl h)
  · rcases le_total (Item.dateAt parse now a) (Item.dateAt parse now b) with hd | hd
    · exact Or.inl (Or.inr ⟨h, hd⟩)
    · exact Or.inr (Or.inr ⟨h.symm, hd⟩)
  · exact Or.inr (Or.inl h)

theorem filter_mergeSort_eq {α : Type} (le : α → α → Bool)
    (htrans : ∀ a b c, le a b → le b c → le a c)
    (htotal : ∀ a b, le a b || le b a)
    (p : α → Bool) (hp : ∀ a b, p a → p b → le a b) (l : List α) :
    (l.mergeSort le).filter p = l.filter p := by
  have hpw : (l.filter p).Pairwise fun a b => le a b := by
    rw [List.pairwise_iff_forall_sublist]
    intro a b hs
    have ha : a ∈ l.filter p := hs.subset (by simp)
    have hb : b ∈ l.filter p := hs.subset (by simp)
    exact hp a b (List.mem_filter.mp ha).2 (List.mem_filter.mp hb).2
  have hsub : List.Sublist (l.filter p) (l.mergeSort le) :=
    List.sublist_mergeSort htrans htotal hpw (List.filter_sublist l)
  have hself : (l.filter p).filter p = l.filter p :=
    List.filter_eq_self.mpr fun a ha => (List.mem_filter.mp ha).2
  have hsub2 : List.Sublist (l.filter p) ((l.mergeSort le).filter p) :=
    hself ▸ hsub.filter p
  have hperm : List.Perm ((l.mergeSort le).filter p) (l.filter p) :=
    (List.mergeSort_perm l le).filter p
  exact (hsub2.eq_of_length hperm.length_eq.symm).symm

/-- C8: `sorted(items, key=lambda item: (item.package, item.date))` returns a
permutation of the input ordered by package name then date, both ascending
(so of two items with equal package, the earlier date comes first), and the
sort is stable: the items carrying any fixed (package, date) key appear in
the output in their input order. -/
theorem sort_flag_stable_by_package_date (parse : String → Int) (now : Int)
    (l : List Item) :
    List.Perm (Printer.sortItems parse now l) l
  ∧ (Printer.sortItems parse now l).Pairwise (fun x y =>
      x.package < y.package ∨
        (x.package = y.package ∧ Item.dateAt parse now x ≤ Item.dateAt parse now y))
  ∧ ∀ (p : String) (d : Int),
      (Printer.sortItems parse now l).filter
          (fun x => decide (x.package = p ∧ Item.dateAt parse now x = d))
        = l.filter (fun x => decide (x.package = p ∧ Item.dateAt parse now x = d)) := by
  refine ⟨List.mergeSort_perm l _, ?_, ?_⟩
  · have := List.sorted_mergeSort (keyLe_trans parse now) (keyLe_total parse now) l
    exact this.imp fun h => by
      simpa [Printer.keyLe, decide_eq_true_eq] using h
  · intro p d
    refine filter_mergeSort_eq (Printer.keyLe parse now) (keyLe_trans parse now)
      (keyLe_total parse now) _ ?_ l
    intro a b hpa hpb
    simp only [decide_eq_true_eq] at hpa hpb
    simp only [Printer.keyLe, decide_eq_true_eq]
    exact Or.inr ⟨hpa.1.trans hpb.1.symm, le_of_eq (hpa.2.trans hpb.2.symm)⟩

/-- C9: a kind outside builds/updates/commits fails with the unsupported-kind
error and performs no fetch; a format outside tty/md fails with the
unsupported-format error and prints no item line. -/
theorem unsupported_kind_format_fail_fast (parse : String → Int)
    (feed : List Build) (gitOut : Option String) (s e now : Int)
    (kind fmt : String) (items : List Item)
    (hk : kind ∉ (["builds", "updates", "commits"] : List String))
    (hf : fmt ∉ (["tty", "md"] : List String)) :
    Printer.itemsRun parse feed gitOut s e now kind
        = ([], Except.error (WError.unsupportedKind kind))
  ∧ Printer.printRun parse items fmt = ([], some (WError.unsupportedFormat fmt)) := by
  simp only [List.mem_cons, List.not_mem_nil, or_false, not_or] at hk hf
  constructor
  · rw [Printer.itemsRun, if_neg hk.1, if_neg hk.2.1, if_neg hk.2.2]
  · rw [Printer.printRun, if_neg hf.1, if_neg hf.2]

/-- Witness for C9 at the concrete unsupported values "weekly" and "html". -/
theorem unsupported_kind_format_fail_fast_check :
    Printer.itemsRun exParse [] none 0 0 0 "weekly"
        = ([], Except.error (WError.unsupportedKind "weekly"))
  ∧ Printer.printRun exParse [] "html" = ([], some (WError.unsupportedFormat "html")) :=
  unsupported_kind_format_fail_fast exParse [] none 0 0 0 "weekly" "html" []
    (by decide) (by decide)

/-- C10: a build with `finished = None` takes the clock instant of each access
as its effective date, so the date can differ between two accesses, the
window selection over identical feed and window can differ between two runs,
and so can the whole printed one-shot report. -/
theorem unfinished_build_date_uses_clock :
    (∀ (i : Int) (pk v rel rf tg tu lu st bu : String) (parse : String → Int)
      (now : Int),
      Build.dateAt parse now (Build.mk i pk v rel rf tg tu lu st bu none) = now)
  ∧ (∃ (b : Build) (parse : String → Int) (n₁ n₂ : Int),
      b.finished = none ∧ Build.dateAt parse n₁ b ≠ Build.dateAt parse n₂ b)
  ∧ (∃ (feed : List Build) (parse : String → Int) (s e n₁ n₂ : Int),
      Builds.during parse feed s e n₁ ≠ Builds.during parse feed s e n₂)
  ∧ (∃ (feed : List Build) (parse : String → Int) (gitOut : Option String)
      (s e n₁ n₂ : Int) (kind fmt : String) (srt : Bool),
      Printer.oneShot parse feed gitOut s e n₁ kind fmt srt
        ≠ Printer.oneShot parse feed gitOut s e n₂ kind fmt srt) := by
  refine ⟨fun i pk v rel rf tg tu lu st bu parse now => rfl,
    ⟨exBuildN, exParse, 0, 1, rfl, by decide⟩,
    ⟨[exBuildN], exParse, 0, 10, 5, 20, by decide⟩,
    ⟨[exBuildN], exParse, none, 0, 10, 5, 20, "builds", "md", false, by decide⟩⟩

end Worklog
